import Mathlib

/-!
Verification development for the TrueTone real-time audio transport layer.

The definitions below are shallow embeddings of the JavaScript source:

* `RingBuffer` and its operations embed the circular audio buffer object
  created by `setupAudioBuffer` in the part_005 content script
  (fields `buffer`, `writePos`, `readPos`, `length`, `capacity` and the
  methods `write`, `read`, `clear`).
* Machine integers in the JS source are ordinary numbers; positions are
  modelled as `Nat` (they are only ever assigned values reduced `% capacity`
  of non-negative quantities), while the stored `length` is modelled as `Int`
  because the source lets it go negative temporarily inside `write` before
  clamping it with `Math.min`.
-/

namespace TrueTone

/-- State of the circular audio buffer object built by `setupAudioBuffer`
(part_005).  `buffer` is the backing `Float32Array` of size `capacity`;
the sample type is kept abstract as `α`. -/
structure RingBuffer (α : Type) where
  buffer : List α
  writePos : Nat
  readPos : Nat
  length : Int
  capacity : Nat
deriving Repr, DecidableEq

/-- Copy loop of `write` in part_005:
for each `i`, `buffer[(writePos + i) % capacity] = data[i]`;
here `pos` stands for `writePos + i`. -/
def writeSamples {α : Type} (cap : Nat) : List α → List α → Nat → List α
  | buf, [], _ => buf
  | buf, d :: ds, pos => writeSamples cap (buf.set (pos % cap) d) ds (pos + 1)

/-- Method `write(data)` of the circular audio buffer (part_005 lines 466-486):
if the incoming array does not fit, the read position is advanced to drop the
oldest data (the stored `length` may become negative at this point, exactly as
in the JS source), then the samples are copied in with wrap-around and the
length is clamped to the capacity. -/
def RingBuffer.write {α : Type} (b : RingBuffer α) (data : List α) : RingBuffer α :=
  let available : Int := (b.capacity : Int) - b.length
  let b1 :=
    if (data.length : Int) > available then
      { b with
        readPos := (((b.readPos : Int) + ((data.length : Int) - available)).toNat) % b.capacity
        length := min (b.length - ((data.length : Int) - available)) (b.capacity : Int) }
    else b
  { b1 with
    buffer := writeSamples b1.capacity b1.buffer data b1.writePos
    writePos := (b1.writePos + data.length) % b1.capacity
    length := min (b1.length + (data.length : Int)) (b1.capacity : Int) }

/-- Method `read(size)` of the circular audio buffer (part_005 lines 488-504):
removes and returns up to `size` samples in FIFO order; returns the read
samples together with the updated buffer. -/
def RingBuffer.read {α : Type} [Inhabited α] (b : RingBuffer α) (size : Nat) :
    List α × RingBuffer α :=
  let readSize : Int := min (size : Int) b.length
  if readSize = 0 then ([], b)
  else
    ((List.range readSize.toNat).map fun i =>
        b.buffer.getD ((b.readPos + i) % b.capacity) default,
      { b with
        readPos := (b.readPos + readSize.toNat) % b.capacity
        length := b.length - readSize })

/-- Method `clear()` of the circular audio buffer (part_005 lines 506-510). -/
def RingBuffer.clear {α : Type} (b : RingBuffer α) : RingBuffer α :=
  { b with writePos := 0, readPos := 0, length := 0 }

/-- The freshly constructed buffer from `setupAudioBuffer`: a zero-filled
backing array of the configured capacity with all cursors at zero.  A JS
`Float32Array` is zero-initialised, modelled by `default`. -/
def RingBuffer.mkEmpty (α : Type) [Inhabited α] (cap : Nat) : RingBuffer α :=
  { buffer := List.replicate cap default
    writePos := 0
    readPos := 0
    length := 0
    capacity := cap }

/-- Abstract FIFO content of the buffer: the unread samples in the order
`read` would return them. -/
def RingBuffer.toList {α : Type} [Inhabited α] (b : RingBuffer α) : List α :=
  (List.range b.length.toNat).map fun i =>
    b.buffer.getD ((b.readPos + i) % b.capacity) default

/-- Representation invariant of the circular buffer, satisfied by the
constructed buffer and preserved by each method. -/
structure RingBuffer.Inv {α : Type} (b : RingBuffer α) : Prop where
  cap_pos : 0 < b.capacity
  buf_len : b.buffer.length = b.capacity
  readPos_lt : b.readPos < b.capacity
  len_nonneg : 0 ≤ b.length
  len_le : b.length ≤ (b.capacity : Int)
  writePos_eq : b.writePos = (b.readPos + b.length.toNat) % b.capacity

/-- One public operation on the circular buffer. -/
inductive BufOp (α : Type) where
  | write (data : List α)
  | read (size : Nat)
  | clear

/-- Apply one public operation. -/
def RingBuffer.applyOp {α : Type} [Inhabited α] (b : RingBuffer α) : BufOp α → RingBuffer α
  | .write data => b.write data
  | .read size => (b.read size).2
  | .clear => b.clear

/-- Run a sequence of public operations from a given buffer state. -/
def RingBuffer.run {α : Type} [Inhabited α] (b : RingBuffer α) (ops : List (BufOp α)) :
    RingBuffer α :=
  ops.foldl RingBuffer.applyOp b

/-!
Shallow embedding of the part_004 `AudioCaptureManager` (content script).
Only the fields and handlers that some claim is about are modelled; the
`averageLevel` metric (whose update involves a real square root) and the SNR
estimate attached to chunk metadata are omitted as no claim mentions them.
Audio samples and wall-clock seconds are modelled as rationals, millisecond
timestamps as integers.
-/

/-- Readiness state of a browser WebSocket: 0 CONNECTING, 1 OPEN, 2 CLOSING,
3 CLOSED. -/
structure WebSock where
  readyState : Nat
deriving Repr, DecidableEq

/-- An `audio_chunk` message as built by `sendAudioChunk` (part_004 lines
225-278).  The base64 payload is modelled by the list of samples it encodes. -/
structure Chunk where
  sequence : Nat
  timestamp : Int
  sampleRate : Nat
  data : List ℚ
deriving Repr, DecidableEq

/-- State of the part_004 `AudioCaptureManager` (constructor lines 4-26),
restricted to the fields used by the claims. -/
structure Manager where
  isCapturing : Bool
  audioBuffer : List ℚ
  bufferSize : Nat
  maxBufferSize : Nat
  sampleRate : Nat
  sequenceNumber : Nat
  lastChunkTime : Int
  reconnectAttempts : Nat
  maxReconnectAttempts : Nat
  websocket : Option WebSock
  peakLevel : ℚ
  clipCount : Nat
  silenceCount : Nat
  serverTimeOffset : ℚ
deriving Repr, DecidableEq

/-- The constructor values of `AudioCaptureManager`.  `serverTimeOffset` is
not initialised by the JS constructor (it is first written on a backend
message); it is modelled as starting at 0. -/
def Manager.init : Manager :=
  { isCapturing := false
    audioBuffer := []
    bufferSize := 4096
    maxBufferSize := 1024 * 1024
    sampleRate := 44100
    sequenceNumber := 0
    lastChunkTime := 0
    reconnectAttempts := 0
    maxReconnectAttempts := 5
    websocket := none
    peakLevel := 0
    clipCount := 0
    silenceCount := 0
    serverTimeOffset := 0 }

/-- Handler `analyzeAudioQuality` (part_004 lines 181-211): counts clipping
samples (`|x| ≥ 0.99`) and near-silent samples (`|x| ≤ 0.01`) and applies the
slow multiplicative decay 0.99 to the running peak level. -/
def analyzeAudioQuality (s : Manager) (data : List ℚ) : Manager :=
  { s with
    peakLevel := max (s.peakLevel * (99 / 100)) (data.foldr (fun x m => max |x| m) 0)
    clipCount := s.clipCount + (data.filter (fun x => 99 / 100 ≤ |x|)).length
    silenceCount := s.silenceCount + (data.filter (fun x => |x| ≤ 1 / 100)).length }

/-- Handler `addToAudioBuffer` (part_004 lines 213-223): when the incoming
array would overflow `maxBufferSize`, `splice(0, overflow)` removes the
oldest samples (at most all of them) before the new samples are appended. -/
def addToAudioBuffer (s : Manager) (data : List ℚ) : Manager :=
  if s.maxBufferSize < s.audioBuffer.length + data.length then
    { s with audioBuffer :=
        (s.audioBuffer.drop (s.audioBuffer.length + data.length - s.maxBufferSize)) ++ data }
  else
    { s with audioBuffer := s.audioBuffer ++ data }

/-- Handler `sendAudioChunk` (part_004 lines 225-278): on a non-empty buffer
and a non-null websocket it always builds the chunk (consuming the next
sequence number), actually sends it only when the socket is OPEN
(readyState 1), and then unconditionally clears the buffer, stamps
`lastChunkTime` and resets the clip and silence counters. -/
def sendAudioChunk (s : Manager) (now : Int) : Manager × Option Chunk :=
  if s.audioBuffer.isEmpty then (s, none)
  else
    match s.websocket with
    | none => (s, none)
    | some w =>
        let c : Chunk :=
          { sequence := s.sequenceNumber
            timestamp := now
            sampleRate := s.sampleRate
            data := s.audioBuffer }
        ({ s with
            sequenceNumber := s.sequenceNumber + 1
            audioBuffer := []
            lastChunkTime := now
            clipCount := 0
            silenceCount := 0 },
          if w.readyState = 1 then some c else none)

/-- Handler `processAudioData` (part_004 lines 155-179): ignores input unless
capturing; otherwise analyses quality, appends to the buffer, and calls
`sendAudioChunk` when the buffer holds at least `bufferSize` samples or more
than 100 ms have passed since the last chunk. -/
def processAudioData (s : Manager) (data : List ℚ) (now : Int) : Manager × Option Chunk :=
  if s.isCapturing then
    let s1 := analyzeAudioQuality s data
    let s2 := addToAudioBuffer s1 data
    if s2.bufferSize ≤ s2.audioBuffer.length ∨ 100 < now - s2.lastChunkTime then
      sendAudioChunk s2 now
    else (s2, none)
  else (s, none)

/-- Observable outputs of one step of the part_004 manager. -/
inductive Act where
  | sent (c : Chunk)
  | scheduledReconnect (attempt : Nat) (delayMs : Nat)
deriving Repr, DecidableEq

/-- Handler `reconnectWebSocket` (part_004 lines 357-380): once the attempt
counter has reached the maximum it returns silently (the session is left as
it is); otherwise it increments the counter and schedules a retry after
exactly `min(1000 * 2^attempt, 30000)` milliseconds, with no jitter. -/
def reconnectWebSocket (s : Manager) : Manager × List Act :=
  if s.maxReconnectAttempts ≤ s.reconnectAttempts then (s, [])
  else
    let a := s.reconnectAttempts + 1
    ({ s with reconnectAttempts := a },
      [Act.scheduledReconnect a (min (1000 * 2 ^ a) 30000)])

/-- External events driving the part_004 manager.  `retryFailed` is the catch
branch of the timer scheduled by `reconnectWebSocket` (it calls
`reconnectWebSocket` again, with no capturing check); `wsClose` is the
`onclose` callback, which in part_004 ignores the closure code. -/
inductive Ev where
  | processAudio (data : List ℚ) (now : Int)
  | wsOpen
  | wsClose (code : Nat)
  | retryFailed
  | connectionEstablished (serverTime nowSec : ℚ)
  | syncResponse (clientTime serverTime jitter : ℚ)
  | stopCapture
deriving Repr, DecidableEq

/-- One step of the part_004 manager: dispatches an event to the handler the
source installs for it (`onaudioprocess`, `onopen`, `onclose`, the reconnect
timer's catch branch, `handleBackendMessage` lines 483-538, `stopCapture`
lines 697-748). -/
def step (s : Manager) : Ev → Manager × List Act
  | .processAudio data now =>
      let p := processAudioData s data now
      (p.1, match p.2 with | some c => [Act.sent c] | none => [])
  | .wsOpen => ({ s with reconnectAttempts := 0 }, [])
  | .wsClose _ => if s.isCapturing then reconnectWebSocket s else (s, [])
  | .retryFailed => reconnectWebSocket s
  | .connectionEstablished st now => ({ s with serverTimeOffset := st - now }, [])
  | .syncResponse ct st _ => ({ s with serverTimeOffset := st - ct }, [])
  | .stopCapture =>
      ({ s with
          isCapturing := false
          websocket := none
          audioBuffer := []
          sequenceNumber := 0
          reconnectAttempts := 0 }, [])

/-- Run the part_004 manager over a list of events, collecting all outputs. -/
def runEvents (s : Manager) : List Ev → Manager × List Act
  | [] => (s, [])
  | e :: evs =>
      let p := step s e
      let q := runEvents p.1 evs
      (q.1, p.2 ++ q.2)

/-- Sequence numbers of the chunks actually sent, in order of emission. -/
def sentSeqs (acts : List Act) : List Nat :=
  acts.filterMap fun a => match a with
    | .sent c => some c.sequence
    | _ => none

/-- The scheduled reconnect attempts, as pairs of attempt number and delay. -/
def scheduledOf (acts : List Act) : List (Nat × Nat) :=
  acts.filterMap fun a => match a with
    | .scheduledReconnect k d => some (k, d)
    | _ => none

/-!
Shallow embedding of the part_005 `TrueToneYouTube` client (reconnect logic).
-/

/-- Observable outputs of one step of the part_005 client. -/
inductive Act5 where
  | scheduledReconnect (attempt : Nat) (delayMs : ℚ)
  | fatalSurfaced
  | closedTransport
deriving Repr, DecidableEq

/-- State of the part_005 `TrueToneYouTube` client, restricted to the fields
the reconnect claims are about. -/
structure Client where
  isTranslating : Bool
  reconnectAttempts : Nat
  maxReconnectAttempts : Nat
  websocketOpen : Bool
deriving Repr, DecidableEq

/-- Handler `stopTranslation` (part_005 lines 161-184): clears the
translating flag and closes the media stream, websocket and audio context;
`websocket.close()` with no argument initiates a non-abnormal closure. -/
def stopTranslation (s : Client) : Client × List Act5 :=
  ({ s with isTranslating := false, websocketOpen := false }, [Act5.closedTransport])

/-- The part_005 reconnect delay (line 320-321):
`reconnectInterval * 1.5^(attempt-1)` ms with `reconnectInterval = 2000`,
with no upper cap and no jitter. -/
def attemptReconnectDelay (attempt : Nat) : ℚ :=
  2000 * (3 / 2) ^ (attempt - 1)

/-- Handler `attemptReconnect` (part_005 lines 311-337): once the counter has
reached the maximum it surfaces the connection failure and stops the
translation; otherwise it increments the counter and schedules a retry whose
timer callback is guarded by `isTranslating`. -/
def attemptReconnect (s : Client) : Client × List Act5 :=
  if s.maxReconnectAttempts ≤ s.reconnectAttempts then
    let p := stopTranslation s
    (p.1, Act5.fatalSurfaced :: p.2)
  else
    let a := s.reconnectAttempts + 1
    ({ s with reconnectAttempts := a },
      [Act5.scheduledReconnect a (attemptReconnectDelay a)])

/-- External events driving the part_005 client. -/
inductive Ev5 where
  | wsClose (code : Nat)
  | wsOpen
  | stopTranslation
deriving Repr, DecidableEq

/-- One step of the part_005 client: the `onclose` handler (part_005 lines
276-290) reconnects only while translating and only when the closure code is
neither 1000 nor 1001; `onopen` resets the attempt counter. -/
def step5 (s : Client) : Ev5 → Client × List Act5
  | .wsClose code =>
      if s.isTranslating ∧ code ≠ 1000 ∧ code ≠ 1001 then attemptReconnect s
      else (s, [])
  | .wsOpen => ({ s with reconnectAttempts := 0, websocketOpen := true }, [])
  | .stopTranslation => stopTranslation s

/-- Run the part_005 client over a list of events, collecting all outputs. -/
def runEvents5 (s : Client) : List Ev5 → Client × List Act5
  | [] => (s, [])
  | e :: evs =>
      let p := step5 s e
      let q := runEvents5 p.1 evs
      (q.1, p.2 ++ q.2)

/-- The scheduled reconnects of a part_005 output trace. -/
def scheduledOf5 (acts : List Act5) : List (Nat × ℚ) :=
  acts.filterMap fun a => match a with
    | .scheduledReconnect k d => some (k, d)
    | _ => none

/-- How many fatal-failure surfaces a part_005 output trace contains. -/
def fatalCount (acts : List Act5) : Nat :=
  (acts.filter fun a => a = Act5.fatalSurfaced).length

/-!
Clock synchronisation: definitions modelled from the spec, used to compare
the code against the claimed offset formula and RTT filter.
-/

/-- Modelled from the spec (section 4.6): the clock offset a sync response is
claimed to produce — remote time minus the request's local send time,
corrected by half the round-trip time measured from that send to the local
receive time of the response. -/
def specClockOffset (clientTime serverTime recvTime : ℚ) : ℚ :=
  serverTime - clientTime - (recvTime - clientTime) / 2

/-- Lower median of a list of rationals, used to state the spec's rolling
RTT threshold. -/
def median (l : List ℚ) : ℚ :=
  (l.insertionSort (· ≤ ·)).getD (l.length / 2) 0

/-- Modelled from the spec (section 4.6): the adaptive RTT ceiling — the
median of recent RTT samples times a configurable factor — below which a
round-trip sample must fall to be accepted.  No counterpart exists in the
part_004 client code. -/
def specRttCeiling (recentRtts : List ℚ) (factor : ℚ) : ℚ :=
  factor * median recentRtts

/-!
Helper lemmas about the part_004 manager handlers.
-/

/-- Start state of an active part_004 capture session: capturing, with a
connected websocket, all counters fresh. -/
def capturingInit : Manager :=
  { Manager.init with isCapturing := true, websocket := some ⟨1⟩ }

/-- Start state of an active part_005 translation session. -/
def translatingInit : Client :=
  { isTranslating := true
    reconnectAttempts := 0
    maxReconnectAttempts := 5
    websocketOpen := true }

/-!
Codec layer (claim C9).
-/

/-- Byte serialisation of one signed 16-bit sample, little-endian: the memory
layout of one element of the `Int16Array` whose underlying buffer
`compressAudioData` returns. -/
def int16ToBytes (x : Int) : List Nat :=
  [(x % 65536).toNat % 256, (x % 65536).toNat / 256]

/-- `compressAudioData` (part_005 lines 560-567): the identity "compression"
of the demo codec — it returns the underlying buffer of its `Int16Array`
argument unchanged, i.e. the little-endian byte stream of the samples. -/
def compressAudioData (samples : List Int) : List Nat :=
  (samples.map int16ToBytes).flatten

/-- Modelled from the spec: the decode direction of the lossless codec path.
The backend decompression implementation (`audio_compression.py`) is not
under src/; per section 4.3 of the spec, decode is the exact inverse of
encode for lossless variants, so it reconstructs the signed 16-bit samples
from the little-endian byte stream that `compressAudioData` emits. -/
def decompressAudioData : List Nat → List Int
  | lo :: hi :: rest =>
      (if 32768 ≤ lo + 256 * hi then (lo + 256 * hi : Int) - 65536
       else (lo + 256 * hi : Int)) :: decompressAudioData rest
  | _ => []

/-- The part_004 events whose handler writes `serverTimeOffset`. -/
def touchesOffset : Ev → Bool
  | .syncResponse _ _ _ => true
  | .connectionEstablished _ _ => true
  | _ => false

example :
    ((RingBuffer.mkEmpty Nat 3).write [1, 2, 3, 4, 5]).toList = [3, 4, 5] := by decide

theorem getD_set_self {α : Type} (l : List α) (i : Nat) (a d : α) (h : i < l.length) :
    (l.set i a).getD i d = a := by
  rw [List.getD_eq_getElem _ _ (by simpa using h)]
  simp [List.getElem_set_self]

theorem getD_set_ne {α : Type} (l : List α) {i j : Nat} (a d : α) (h : i ≠ j) :
    (l.set i a).getD j d = l.getD j d := by
  simp [List.getD, List.getElem?_set_ne h]

theorem writeSamples_length {α : Type} (cap : Nat) (data : List α) :
    ∀ (buf : List α) (pos : Nat), (writeSamples cap buf data pos).length = buf.length := by
  induction data with
  | nil => intro buf pos; rfl
  | cons d ds ih =>
      intro buf pos
      rw [writeSamples, ih]
      simp

/-- The copy loop leaves every slot alone that none of its iterations targets. -/
theorem writeSamples_getD_untouched {α : Type} (cap : Nat) (data : List α) :
    ∀ (buf : List α) (pos p : Nat) (dflt : α),
      (∀ i, i < data.length → (pos + i) % cap ≠ p) →
      (writeSamples cap buf data pos).getD p dflt = buf.getD p dflt := by
  induction data with
  | nil => intro buf pos p dflt _; rfl
  | cons d ds ih =>
      intro buf pos p dflt h
      rw [writeSamples, ih _ _ _ _ (fun i hi => by
        have := h (i + 1) (by simpa using Nat.succ_lt_succ hi)
        simpa [Nat.add_assoc, Nat.add_comm 1 i] using this)]
      exact getD_set_ne _ _ _ (by simpa using h 0 (Nat.succ_pos _))

/-- The copy loop stores `data[i]` in slot `(pos + i) % cap` whenever `i` is the
last iteration targeting that slot. -/
theorem writeSamples_getD_last {α : Type} (cap : Nat) (data : List α) :
    ∀ (buf : List α) (pos i : Nat) (dflt : α),
      0 < cap → buf.length = cap →
      i < data.length →
      (∀ j, j < data.length → (pos + j) % cap = (pos + i) % cap → j ≤ i) →
      (writeSamples cap buf data pos).getD ((pos + i) % cap) dflt = data.getD i dflt := by
  induction data with
  | nil => intro buf pos i dflt _ _ hi _; exact absurd hi (by simp)
  | cons d ds ih =>
      intro buf pos i dflt hcap hbuf hi hlast
      match i with
      | 0 =>
          rw [writeSamples]
          have huntouched : ∀ j, j < ds.length → (pos + 1 + j) % cap ≠ (pos + 0) % cap := by
            intro j hj hcontra
            have := hlast (j + 1) (by simpa using Nat.succ_lt_succ hj)
              (by simpa [Nat.add_assoc, Nat.add_comm 1 j] using hcontra)
            omega
          rw [writeSamples_getD_untouched cap ds _ _ _ _ huntouched]
          have : (pos + 0) % cap = pos % cap := by simp
          rw [this]
          exact getD_set_self _ _ _ _ (by rw [hbuf]; exact Nat.mod_lt _ hcap)
      | i + 1 =>
          rw [writeSamples]
          have hrw : (pos + (i + 1)) % cap = (pos + 1 + i) % cap := by
            ring_nf
          rw [hrw]
          rw [ih _ (pos + 1) i _ hcap (by simpa using hbuf) (by simpa using hi)
            (fun j hj hsl => by
              have := hlast (j + 1) (by simpa using Nat.succ_lt_succ hj)
                (by
                  have h1 : pos + (j + 1) = pos + 1 + j := by ring
                  have h2 : pos + (i + 1) = pos + 1 + i := by ring
                  rw [h1, h2]; exact hsl)
              omega)]
          rfl

/-- Two positions with the same residue and a bounded positive gap smaller than
the modulus cannot exist. -/
theorem mod_eq_le_of_lt {a b cap : Nat} (hab : a ≤ b)
    (h : a % cap = b % cap) (hpos : a < b) : cap ≤ b - a := by
  have hdvd : cap ∣ b - a := (Nat.modEq_iff_dvd' hab).mp h
  exact Nat.le_of_dvd (by omega) hdvd

example :
    (((RingBuffer.mkEmpty Nat 3).write [1, 2]).read 1).1 = [1] := by decide

theorem RingBuffer.toList_length {α : Type} [Inhabited α] (b : RingBuffer α) :
    b.toList.length = b.length.toNat := by
  simp [RingBuffer.toList]

theorem RingBuffer.toList_getElem {α : Type} [Inhabited α] (b : RingBuffer α) (j : Nat)
    (h : j < b.toList.length) :
    b.toList[j] = b.buffer.getD ((b.readPos + j) % b.capacity) default := by
  simp [RingBuffer.toList]

/-- Normal form of `write` when the incoming data fits without eviction. -/
theorem RingBuffer.write_eq_of_fits {α : Type} (b : RingBuffer α) (data : List α)
    (h : (data.length : Int) ≤ (b.capacity : Int) - b.length) :
    b.write data =
      { buffer := writeSamples b.capacity b.buffer data b.writePos
        writePos := (b.writePos + data.length) % b.capacity
        readPos := b.readPos
        length := b.length + data.length
        capacity := b.capacity } := by
  obtain ⟨buf, w, r, l, cap⟩ := b
  dsimp only at h
  simp only [RingBuffer.write]
  rw [if_neg (by omega)]
  simp only [RingBuffer.mk.injEq, true_and, and_true]
  omega

/-- Normal form of `write` when the incoming data forces eviction of the
oldest samples. -/
theorem RingBuffer.write_eq_of_overflow {α : Type} (b : RingBuffer α) (data : List α)
    (hInv : b.Inv)
    (h : (b.capacity : Int) - b.length < (data.length : Int)) :
    b.write data =
      { buffer := writeSamples b.capacity b.buffer data b.writePos
        writePos := (b.writePos + data.length) % b.capacity
        readPos := (b.readPos + (b.length.toNat + data.length - b.capacity)) % b.capacity
        length := (b.capacity : Int)
        capacity := b.capacity } := by
  obtain ⟨hcap, hbuf, hr, hl0, hlc, hw⟩ := hInv
  obtain ⟨buf, w, r, l, cap⟩ := b
  dsimp only at hcap hbuf hr hl0 hlc hw h
  simp only [RingBuffer.write]
  rw [if_pos (by omega)]
  simp only [RingBuffer.mk.injEq, true_and, and_true]
  refine ⟨?_, ?_⟩
  · have heq : ((r : Int) + ((data.length : Int) - ((cap : Int) - l))).toNat
        = r + (l.toNat + data.length - cap) := by omega
    rw [heq]
  · omega

theorem RingBuffer.write_capacity {α : Type} (b : RingBuffer α) (data : List α) :
    (b.write data).capacity = b.capacity := by
  obtain ⟨buf, w, r, l, cap⟩ := b
  simp only [RingBuffer.write]
  split <;> rfl

theorem RingBuffer.write_length {α : Type} (b : RingBuffer α) (data : List α)
    (hInv : b.Inv) :
    (b.write data).length = min (b.length + (data.length : Int)) (b.capacity : Int) := by
  rcases le_or_lt ((data.length : Int)) ((b.capacity : Int) - b.length) with h | h
  · rw [RingBuffer.write_eq_of_fits b data h]
    dsimp only
    omega
  · rw [RingBuffer.write_eq_of_overflow b data hInv h]
    dsimp only
    omega

theorem RingBuffer.write_Inv {α : Type} (b : RingBuffer α) (data : List α)
    (hInv : b.Inv) : (b.write data).Inv := by
  obtain ⟨hcap, hbuf, hr, hl0, hlc, hw⟩ := hInv
  rcases le_or_lt ((data.length : Int)) ((b.capacity : Int) - b.length) with h | h
  · rw [RingBuffer.write_eq_of_fits b data h]
    refine ⟨hcap, ?_, hr, by dsimp only; omega, by dsimp only; omega, ?_⟩
    · dsimp only
      rw [writeSamples_length]
      exact hbuf
    · dsimp only
      have htn : (b.length + (data.length : Int)).toNat = b.length.toNat + data.length := by
        omega
      rw [htn, hw, Nat.mod_add_mod, Nat.add_assoc]
  · rw [RingBuffer.write_eq_of_overflow b data ⟨hcap, hbuf, hr, hl0, hlc, hw⟩ h]
    refine ⟨hcap, ?_, Nat.mod_lt _ hcap, by dsimp only; omega, by dsimp only; omega, ?_⟩
    · dsimp only
      rw [writeSamples_length]
      exact hbuf
    · dsimp only
      rw [Int.toNat_natCast, hw, Nat.mod_add_mod, Nat.mod_add_mod]
      have hx : b.readPos + (b.length.toNat + data.length - b.capacity) + b.capacity
          = b.readPos + b.length.toNat + data.length := by omega
      rw [hx]

/-- Auxiliary form of the drop-oldest specification: a state whose fields agree
with the normal forms of `write` has the FIFO content
`takeRight capacity (old content ++ data)`, written with `drop`. -/
theorem write_toList_aux {α : Type} [Inhabited α] (b b2 : RingBuffer α) (data : List α)
    (hInv : b.Inv)
    (hcap2 : b2.capacity = b.capacity)
    (hbuf2 : b2.buffer = writeSamples b.capacity b.buffer data b.writePos)
    (hlen2 : b2.length.toNat = min (b.length.toNat + data.length) b.capacity)
    (hr2 : b2.readPos
      = (b.readPos + (b.length.toNat + data.length
          - min (b.length.toNat + data.length) b.capacity)) % b.capacity) :
    b2.toList = (b.toList ++ data).drop (b.toList.length + data.length - b.capacity) := by
  obtain ⟨hcap, hbuf, hr, hl0, hlc, hw⟩ := hInv
  have hltle : b.length.toNat ≤ b.capacity := by omega
  have hmle : min (b.length.toNat + data.length) b.capacity ≤ b.length.toNat + data.length :=
    Nat.min_le_left _ _
  have hmlecap : min (b.length.toNat + data.length) b.capacity ≤ b.capacity :=
    Nat.min_le_right _ _
  have hdropeq : b.length.toNat + data.length - b.capacity
      = b.length.toNat + data.length - min (b.length.toNat + data.length) b.capacity := by
    omega
  apply List.ext_getElem
  · rw [RingBuffer.toList_length, hlen2, List.length_drop, List.length_append,
      RingBuffer.toList_length]
    omega
  · intro j h1 h2
    rw [RingBuffer.toList_length, hlen2] at h1
    rw [RingBuffer.toList_getElem b2 j
      (by rw [RingBuffer.toList_length, hlen2]; exact h1)]
    rw [hbuf2, hr2, hcap2, Nat.mod_add_mod]
    have hk : b.readPos + (b.length.toNat + data.length
        - min (b.length.toNat + data.length) b.capacity) + j
        = b.readPos + ((b.length.toNat + data.length
            - min (b.length.toNat + data.length) b.capacity) + j) := by omega
    rw [hk]
    set k := (b.length.toNat + data.length
        - min (b.length.toNat + data.length) b.capacity) + j with hkdef
    have hkcap : b.length.toNat + data.length ≤ k + b.capacity := by omega
    have hklt : k < b.length.toNat + data.length := by omega
    have hklen : k < (b.toList ++ data).length := by
      rw [List.length_append, RingBuffer.toList_length]
      omega
    have hrhs : ((b.toList ++ data).drop (b.toList.length + data.length - b.capacity))[j]
        = (b.toList ++ data)[k] := by
      rw [List.getElem_drop]
      congr 1
      rw [RingBuffer.toList_length]
      omega
    rw [hrhs]
    rcases Nat.lt_or_ge k b.length.toNat with hcase | hcase
    · -- the sample at index k survives from the old content: its slot is untouched
      rw [List.getElem_append_left (by rw [RingBuffer.toList_length]; omega)]
      rw [RingBuffer.toList_getElem b k (by rw [RingBuffer.toList_length]; omega)]
      apply writeSamples_getD_untouched
      intro i hi hcontra
      rw [hw, Nat.mod_add_mod] at hcontra
      have hge := mod_eq_le_of_lt (a := b.readPos + k) (b := b.readPos + b.length.toNat + i)
        (by omega) hcontra.symm (by omega)
      omega
    · -- the sample at index k is data[k - len]: its slot holds the last write
      rw [List.getElem_append_right (by rw [RingBuffer.toList_length]; omega)]
      have hieq : k - b.toList.length = k - b.length.toNat := by
        rw [RingBuffer.toList_length]
      have hilt : k - b.length.toNat < data.length := by omega
      have hslot : (b.readPos + k) % b.capacity
          = (b.writePos + (k - b.length.toNat)) % b.capacity := by
        rw [hw, Nat.mod_add_mod]
        congr 1
        omega
      rw [hslot]
      rw [writeSamples_getD_last b.capacity data b.buffer b.writePos (k - b.length.toNat)
        default hcap hbuf hilt ?_]
      · rw [List.getD_eq_getElem data default hilt]
        congr 1
        rw [RingBuffer.toList_length]
      · intro j2 hj2 hceq
        by_contra hgt
        have hge := mod_eq_le_of_lt (a := b.writePos + (k - b.length.toNat))
          (b := b.writePos + j2) (by omega) hceq.symm (by omega)
        omega

/-- Drop-oldest specification of `write` (part_005): the FIFO content after a
write is the suffix of `old content ++ data` that fits within the capacity, so
on overflow exactly the oldest unread samples are evicted, never the newest. -/
theorem RingBuffer.write_toList {α : Type} [Inhabited α] (b : RingBuffer α) (data : List α)
    (hInv : b.Inv) :
    (b.write data).toList
      = (b.toList ++ data).drop (b.toList.length + data.length - b.capacity) := by
  have hl0 := hInv.len_nonneg
  have hlc := hInv.len_le
  rcases le_or_lt ((data.length : Int)) ((b.capacity : Int) - b.length) with h | h
  · rw [RingBuffer.write_eq_of_fits b data h]
    refine write_toList_aux b _ data hInv rfl rfl ?_ ?_
    · dsimp only
      omega
    · dsimp only
      have hmin : min (b.length.toNat + data.length) b.capacity
          = b.length.toNat + data.length := by omega
      rw [hmin, Nat.sub_self, Nat.add_zero, Nat.mod_eq_of_lt hInv.readPos_lt]
  · rw [RingBuffer.write_eq_of_overflow b data hInv h]
    refine write_toList_aux b _ data hInv rfl rfl ?_ ?_
    · dsimp only
      omega
    · dsimp only
      congr 2
      omega

theorem RingBuffer.read_fst {α : Type} [Inhabited α] (b : RingBuffer α) (size : Nat)
    (hInv : b.Inv) : (b.read size).1 = b.toList.take size := by
  have hl0 := hInv.len_nonneg
  simp only [RingBuffer.read]
  split
  · rename_i h0
    have h01 : size = 0 ∨ b.length.toNat = 0 := by omega
    rcases h01 with h | h
    · simp [h]
    · simp [RingBuffer.toList, h]
  · rename_i h0
    have hrs : (min (size : Int) b.length).toNat = min size b.length.toNat := by omega
    rw [RingBuffer.toList, ← List.map_take, List.take_range, hrs]

theorem RingBuffer.read_snd_toList {α : Type} [Inhabited α] (b : RingBuffer α) (size : Nat)
    (hInv : b.Inv) : (b.read size).2.toList = b.toList.drop size := by
  have hl0 := hInv.len_nonneg
  have hr := hInv.readPos_lt
  simp only [RingBuffer.read]
  split
  · rename_i h0
    have h01 : size = 0 ∨ b.length.toNat = 0 := by omega
    rcases h01 with h | h
    · simp [h]
    · simp [RingBuffer.toList, h]
  · rename_i h0
    apply List.ext_getElem
    · rw [RingBuffer.toList_length, List.length_drop, RingBuffer.toList_length]
      dsimp only
      omega
    · intro j h1 h2
      rw [RingBuffer.toList_getElem _ j h1]
      rw [RingBuffer.toList_length] at h1
      dsimp only at h1 ⊢
      have hjlt : j < b.length.toNat - min size b.length.toNat := by omega
      have hsz : min size b.length.toNat < b.length.toNat := by omega
      have hrs : (min (size : Int) b.length).toNat = size := by omega
      rw [List.getElem_drop]
      rw [RingBuffer.toList_getElem b (size + j)
        (by rw [RingBuffer.toList_length]; omega)]
      rw [Nat.mod_add_mod, hrs]
      congr 2
      omega

theorem RingBuffer.read_Inv {α : Type} [Inhabited α] (b : RingBuffer α) (size : Nat)
    (hInv : b.Inv) : (b.read size).2.Inv := by
  obtain ⟨hcap, hbuf, hr, hl0, hlc, hw⟩ := hInv
  simp only [RingBuffer.read]
  split
  · exact ⟨hcap, hbuf, hr, hl0, hlc, hw⟩
  · refine ⟨hcap, hbuf, Nat.mod_lt _ hcap, by dsimp only; omega, by dsimp only; omega, ?_⟩
    dsimp only
    rw [Nat.mod_add_mod, hw]
    congr 1
    omega

theorem RingBuffer.clear_Inv {α : Type} (b : RingBuffer α) (hInv : b.Inv) : b.clear.Inv := by
  obtain ⟨hcap, hbuf, hr, hl0, hlc, hw⟩ := hInv
  exact ⟨hcap, hbuf, hcap, by simp [RingBuffer.clear],
    by simp [RingBuffer.clear], by simp [RingBuffer.clear]⟩

theorem RingBuffer.clear_toList {α : Type} [Inhabited α] (b : RingBuffer α) :
    b.clear.toList = [] := by
  simp [RingBuffer.toList, RingBuffer.clear]

theorem RingBuffer.mkEmpty_Inv {α : Type} [Inhabited α] (cap : Nat) (hcap : 0 < cap) :
    (RingBuffer.mkEmpty α cap).Inv := by
  exact ⟨hcap, by simp [RingBuffer.mkEmpty], by simp [RingBuffer.mkEmpty, hcap],
    by simp [RingBuffer.mkEmpty], by simp [RingBuffer.mkEmpty], by simp [RingBuffer.mkEmpty]⟩

theorem RingBuffer.mkEmpty_toList {α : Type} [Inhabited α] (cap : Nat) :
    (RingBuffer.mkEmpty α cap).toList = [] := by
  simp [RingBuffer.toList, RingBuffer.mkEmpty]

example :
    ((((RingBuffer.mkEmpty Nat 3).write [1, 2]).read 1).2.write [7, 8]).toList
      = [2, 7, 8] := by decide

theorem RingBuffer.applyOp_Inv {α : Type} [Inhabited α] (b : RingBuffer α) (op : BufOp α)
    (hInv : b.Inv) : (b.applyOp op).Inv := by
  cases op with
  | write data => exact RingBuffer.write_Inv b data hInv
  | read size => exact RingBuffer.read_Inv b size hInv
  | clear => exact RingBuffer.clear_Inv b hInv

theorem RingBuffer.run_Inv {α : Type} [Inhabited α] (ops : List (BufOp α)) :
    ∀ b : RingBuffer α, b.Inv → (b.run ops).Inv := by
  induction ops with
  | nil => exact fun b h => h
  | cons op ops ih =>
      intro b hb
      exact ih (b.applyOp op) (RingBuffer.applyOp_Inv b op hb)

theorem addToAudioBuffer_eq (s : Manager) (d : List ℚ) :
    addToAudioBuffer s d = { s with audioBuffer := (addToAudioBuffer s d).audioBuffer } := by
  unfold addToAudioBuffer
  split <;> rfl

/-- Normal form of `processAudioData` with the intermediate states named. -/
theorem processAudioData_eq (s : Manager) (d : List ℚ) (n : Int) :
    processAudioData s d n =
      if s.isCapturing then
        if (addToAudioBuffer (analyzeAudioQuality s d) d).bufferSize
              ≤ (addToAudioBuffer (analyzeAudioQuality s d) d).audioBuffer.length
            ∨ 100 < n - (addToAudioBuffer (analyzeAudioQuality s d) d).lastChunkTime then
          sendAudioChunk (addToAudioBuffer (analyzeAudioQuality s d) d) n
        else (addToAudioBuffer (analyzeAudioQuality s d) d, none)
      else (s, none) := rfl

/-- Normal form of `sendAudioChunk` when there is something to consume. -/
theorem sendAudioChunk_eq_of_nonempty (s : Manager) (now : Int) (w : WebSock)
    (hbuf : s.audioBuffer.isEmpty = false) (hws : s.websocket = some w) :
    sendAudioChunk s now =
      ({ s with
          sequenceNumber := s.sequenceNumber + 1
          audioBuffer := []
          lastChunkTime := now
          clipCount := 0
          silenceCount := 0 },
        if w.readyState = 1 then
          some { sequence := s.sequenceNumber
                 timestamp := now
                 sampleRate := s.sampleRate
                 data := s.audioBuffer }
        else none) := by
  unfold sendAudioChunk
  rw [hbuf, hws]
  rfl

theorem sendAudioChunk_fst_serverTimeOffset (s : Manager) (now : Int) :
    (sendAudioChunk s now).1.serverTimeOffset = s.serverTimeOffset := by
  rcases hbuf : s.audioBuffer.isEmpty with _ | _
  · rcases hws : s.websocket with _ | w
    · unfold sendAudioChunk
      rw [hbuf, hws]
      rfl
    · rw [sendAudioChunk_eq_of_nonempty s now w hbuf hws]
  · unfold sendAudioChunk
    rw [hbuf]
    rfl

theorem processAudioData_fst_serverTimeOffset (s : Manager) (d : List ℚ) (n : Int) :
    (processAudioData s d n).1.serverTimeOffset = s.serverTimeOffset := by
  rw [processAudioData_eq]
  split
  · split
    · rw [sendAudioChunk_fst_serverTimeOffset]
      rw [addToAudioBuffer_eq (analyzeAudioQuality s d) d]
      rfl
    · rw [addToAudioBuffer_eq (analyzeAudioQuality s d) d]
      rfl
  · rfl

theorem sendAudioChunk_seq (s : Manager) (now : Int) :
    ((sendAudioChunk s now).1.sequenceNumber = s.sequenceNumber ∧
      (sendAudioChunk s now).2 = none) ∨
    ((sendAudioChunk s now).1.sequenceNumber = s.sequenceNumber + 1 ∧
      ((sendAudioChunk s now).2 = none ∨
        ∃ c : Chunk, (sendAudioChunk s now).2 = some c ∧ c.sequence = s.sequenceNumber)) := by
  rcases hbuf : s.audioBuffer.isEmpty with _ | _
  · rcases hws : s.websocket with _ | w
    · left
      unfold sendAudioChunk
      rw [hbuf, hws]
      exact ⟨rfl, rfl⟩

    · rw [sendAudioChunk_eq_of_nonempty s now w hbuf hws]
      right
      refine ⟨rfl, ?_⟩
      by_cases hrs : w.readyState = 1
      · right
        refine ⟨{ sequence := s.sequenceNumber, timestamp := now, sampleRate := s.sampleRate,
                  data := s.audioBuffer }, ?_, rfl⟩
        rw [if_pos hrs]
      · left
        rw [if_neg hrs]
  · left
    unfold sendAudioChunk
    rw [hbuf]
    exact ⟨rfl, rfl⟩


theorem reconnectWebSocket_seq (s : Manager) :
    (reconnectWebSocket s).1.sequenceNumber = s.sequenceNumber ∧
    sentSeqs (reconnectWebSocket s).2 = [] := by
  unfold reconnectWebSocket
  split
  · exact ⟨rfl, rfl⟩
  · exact ⟨rfl, rfl⟩

/-- How one step affects the sequence counter outside a session boundary:
either the counter is untouched and nothing is sent, or exactly one chunk is
minted (the counter moves up by one) and, if it goes out at all, it carries
the pre-increment counter value. -/
theorem step_seq_cases (s : Manager) (e : Ev) (h : e ≠ Ev.stopCapture) :
    ((step s e).1.sequenceNumber = s.sequenceNumber ∧ sentSeqs (step s e).2 = []) ∨
    ((step s e).1.sequenceNumber = s.sequenceNumber + 1 ∧
      (sentSeqs (step s e).2 = [] ∨ sentSeqs (step s e).2 = [s.sequenceNumber])) := by
  cases e with
  | processAudio d n =>
      have hseq : (addToAudioBuffer (analyzeAudioQuality s d) d).sequenceNumber
          = s.sequenceNumber := by
        rw [addToAudioBuffer_eq (analyzeAudioQuality s d) d]
        rfl
      simp only [step, processAudioData_eq]
      split
      · split
        · rcases sendAudioChunk_seq (addToAudioBuffer (analyzeAudioQuality s d) d) n with
            ⟨h1, h2⟩ | ⟨h1, h2⟩
          · left
            rw [h2, h1, hseq]
            exact ⟨rfl, rfl⟩
          · right
            rw [h1, hseq]
            refine ⟨rfl, ?_⟩
            rcases h2 with h2 | ⟨c, hc, hcs⟩
            · left
              rw [h2]
              rfl
            · right
              rw [hc]
              simp [sentSeqs, hcs, hseq]
        · left
          exact ⟨by rw [hseq], rfl⟩
      · exact Or.inl ⟨rfl, rfl⟩
  | wsOpen => exact Or.inl ⟨rfl, rfl⟩
  | wsClose c =>
      simp only [step]
      split
      · exact Or.inl (reconnectWebSocket_seq s)
      · exact Or.inl ⟨rfl, rfl⟩
  | retryFailed => exact Or.inl (reconnectWebSocket_seq s)
  | connectionEstablished st now => exact Or.inl ⟨rfl, rfl⟩
  | syncResponse ct st j => exact Or.inl ⟨rfl, rfl⟩
  | stopCapture => exact absurd rfl h

theorem sentSeqs_append (a1 a2 : List Act) :
    sentSeqs (a1 ++ a2) = sentSeqs a1 ++ sentSeqs a2 := by
  simp [sentSeqs]

theorem runEvents_cons (s : Manager) (e : Ev) (evs : List Ev) :
    runEvents s (e :: evs)
      = ((runEvents (step s e).1 evs).1, (step s e).2 ++ (runEvents (step s e).1 evs).2) := rfl

/-- Trace invariant for the sequence counter: in a run with no stopCapture
event the counter never decreases, every sent chunk carries a value between
the start and end counter, and the sent values are strictly increasing. -/
theorem runEvents_seq_invariant (evs : List Ev) :
    ∀ s : Manager, Ev.stopCapture ∉ evs →
      s.sequenceNumber ≤ (runEvents s evs).1.sequenceNumber ∧
      (∀ q ∈ sentSeqs (runEvents s evs).2,
        s.sequenceNumber ≤ q ∧ q < (runEvents s evs).1.sequenceNumber) ∧
      (sentSeqs (runEvents s evs).2).Pairwise (· < ·) := by
  induction evs with
  | nil =>
      intro s _
      refine ⟨le_refl _, ?_, ?_⟩ <;> simp [runEvents, sentSeqs]
  | cons e evs ih =>
      intro s hnot
      have he : e ≠ Ev.stopCapture := by
        intro hcon
        exact hnot (hcon ▸ List.mem_cons_self e evs)
      have hnot2 : Ev.stopCapture ∉ evs := fun hcon => hnot (List.mem_cons_of_mem e hcon)
      obtain ⟨hle, hbounds, hpw⟩ := ih (step s e).1 hnot2
      rw [runEvents_cons]
      dsimp only
      rw [sentSeqs_append]
      rcases step_seq_cases s e he with ⟨hseq, hsent⟩ | ⟨hseq, hsent⟩
      · rw [hsent, List.nil_append]
        rw [hseq] at hle
        refine ⟨hle, ?_, hpw⟩
        intro q hq
        have := hbounds q hq
        rw [hseq] at this
        exact this
      · rcases hsent with hsent | hsent
        · rw [hsent, List.nil_append]
          rw [hseq] at hle
          refine ⟨by omega, ?_, hpw⟩
          intro q hq
          have := hbounds q hq
          rw [hseq] at this
          omega
        · rw [hsent]
          rw [hseq] at hle hbounds
          refine ⟨by omega, ?_, ?_⟩
          · intro q hq
            rcases List.mem_cons.mp hq with rfl | hq
            · omega
            · have := hbounds q hq
              omega
          · rw [List.singleton_append]
            refine List.Pairwise.cons ?_ hpw
            intro y hy
            have := hbounds y hy
            omega

/-!
Reconnect trace lemmas.
-/

theorem scheduledOf_append (a1 a2 : List Act) :
    scheduledOf (a1 ++ a2) = scheduledOf a1 ++ scheduledOf a2 := by
  simp [scheduledOf]

/-- Part_004 consecutive-failure schedule: starting from a capturing state
whose attempt counter is not yet exhausted, `m` consecutive closure events
schedule exactly `min m (max - attempts)` retries, numbered consecutively,
each with the deterministic delay `min(1000 * 2^k, 30000)`; capture stays
active throughout and the counter saturates at the maximum. -/
theorem runEvents_close_schedule (m : Nat) :
    ∀ (s : Manager) (c : Nat), s.isCapturing = true →
      s.reconnectAttempts ≤ s.maxReconnectAttempts →
      scheduledOf (runEvents s (List.replicate m (Ev.wsClose c))).2
          = (List.range (min m (s.maxReconnectAttempts - s.reconnectAttempts))).map
              (fun i => (s.reconnectAttempts + i + 1,
                min (1000 * 2 ^ (s.reconnectAttempts + i + 1)) 30000)) ∧
      (runEvents s (List.replicate m (Ev.wsClose c))).1.isCapturing = true ∧
      (runEvents s (List.replicate m (Ev.wsClose c))).1.reconnectAttempts
          = min (s.reconnectAttempts + m) s.maxReconnectAttempts := by
  induction m with
  | zero =>
      intro s c hcap hle
      refine ⟨?_, hcap, ?_⟩ <;> simp [runEvents, scheduledOf]
      omega
  | succ m ih =>
      intro s c hcap hle
      rw [List.replicate_succ, runEvents_cons]
      have hstep : step s (Ev.wsClose c) = reconnectWebSocket s := by
        simp [step, hcap]
      by_cases hmax : s.maxReconnectAttempts ≤ s.reconnectAttempts
      · have hrec : reconnectWebSocket s = (s, []) := by
          unfold reconnectWebSocket
          rw [if_pos hmax]
        rw [hstep, hrec]
        dsimp only
        obtain ⟨h1, h2, h3⟩ := ih s c hcap hle
        rw [scheduledOf_append, h1]
        have hz : s.maxReconnectAttempts - s.reconnectAttempts = 0 := by omega
        rw [hz]
        refine ⟨by simp [scheduledOf], h2, ?_⟩
        rw [h3]
        omega
      · have hrec : reconnectWebSocket s
            = ({ s with reconnectAttempts := s.reconnectAttempts + 1 },
               [Act.scheduledReconnect (s.reconnectAttempts + 1)
                  (min (1000 * 2 ^ (s.reconnectAttempts + 1)) 30000)]) := by
          unfold reconnectWebSocket
          rw [if_neg hmax]
        rw [hstep, hrec]
        dsimp only
        obtain ⟨h1, h2, h3⟩ :=
          ih { s with reconnectAttempts := s.reconnectAttempts + 1 } c hcap
            (by dsimp only; omega)
        dsimp only at h1 h2 h3
        rw [scheduledOf_append, h1]
        refine ⟨?_, h2, ?_⟩
        · have hmin : min (m + 1) (s.maxReconnectAttempts - s.reconnectAttempts)
              = (min m (s.maxReconnectAttempts - (s.reconnectAttempts + 1))) + 1 := by omega
          rw [hmin, List.range_succ_eq_map, List.map_cons]
          rw [List.map_map]
          have hhead : scheduledOf [Act.scheduledReconnect (s.reconnectAttempts + 1)
              (min (1000 * 2 ^ (s.reconnectAttempts + 1)) 30000)]
            = [(s.reconnectAttempts + 1, min (1000 * 2 ^ (s.reconnectAttempts + 1)) 30000)] := by
            simp [scheduledOf]
          rw [hhead, List.singleton_append]
          congr 1
          apply List.map_congr_left
          intro i hi
          have he : s.reconnectAttempts + 1 + i + 1 = s.reconnectAttempts + (i + 1) + 1 := by
            omega
          simp [Function.comp, he]
        · rw [h3]
          omega

theorem scheduledOf5_append (a1 a2 : List Act5) :
    scheduledOf5 (a1 ++ a2) = scheduledOf5 a1 ++ scheduledOf5 a2 := by
  simp [scheduledOf5]

theorem fatalCount_append (a1 a2 : List Act5) :
    fatalCount (a1 ++ a2) = fatalCount a1 + fatalCount a2 := by
  simp [fatalCount]

theorem runEvents5_cons (s : Client) (e : Ev5) (evs : List Ev5) :
    runEvents5 s (e :: evs)
      = ((runEvents5 (step5 s e).1 evs).1, (step5 s e).2 ++ (runEvents5 (step5 s e).1 evs).2) :=
  rfl

/-- Once the part_005 client has stopped translating, no later event can
schedule a reconnect or surface a fatal error (the `onclose` handler and the
retry timer callback are both guarded by `isTranslating`, which no modelled
event sets back to true). -/
theorem runEvents5_stopped (evs : List Ev5) :
    ∀ s : Client, s.isTranslating = false →
      scheduledOf5 (runEvents5 s evs).2 = [] ∧
      fatalCount (runEvents5 s evs).2 = 0 ∧
      (runEvents5 s evs).1.isTranslating = false := by
  induction evs with
  | nil =>
      intro s htr
      exact ⟨by simp [runEvents5, scheduledOf5], by simp [runEvents5, fatalCount], htr⟩
  | cons e evs ih =>
      intro s htr
      rw [runEvents5_cons]
      dsimp only
      have hstep : (step5 s e).1.isTranslating = false ∧
          scheduledOf5 (step5 s e).2 = [] ∧ fatalCount (step5 s e).2 = 0 := by
        cases e with
        | wsClose c =>
            have hcond : ¬ (s.isTranslating = true ∧ c ≠ 1000 ∧ c ≠ 1001) := by
              simp [htr]
            simp only [step5]
            rw [if_neg hcond]
            exact ⟨htr, by simp [scheduledOf5], by simp [fatalCount]⟩
        | wsOpen => exact ⟨htr, by simp [step5, scheduledOf5], by simp [step5, fatalCount]⟩
        | stopTranslation =>
            exact ⟨rfl, by simp [step5, stopTranslation, scheduledOf5],
              by simp [step5, stopTranslation, fatalCount]⟩
      obtain ⟨hs1, hs2, hs3⟩ := hstep
      obtain ⟨h1, h2, h3⟩ := ih (step5 s e).1 hs1
      rw [scheduledOf5_append, fatalCount_append, hs2, h1, hs3, h2]
      exact ⟨rfl, rfl, h3⟩

/-- Part_005 consecutive-abnormal-closure schedule: starting from a
translating state, `m` abnormal closures schedule exactly
`min m (max - attempts)` retries with the deterministic delays
`2000 * 1.5^(k-1)`; the session stops (and stays stopped) exactly when the
failure count exceeds the remaining budget, at which point one fatal failure
is surfaced. -/
theorem runEvents5_close_schedule (m : Nat) :
    ∀ (s : Client) (c : Nat), s.isTranslating = true →
      s.reconnectAttempts ≤ s.maxReconnectAttempts →
      c ≠ 1000 → c ≠ 1001 →
      scheduledOf5 (runEvents5 s (List.replicate m (Ev5.wsClose c))).2
          = (List.range (min m (s.maxReconnectAttempts - s.reconnectAttempts))).map
              (fun i => (s.reconnectAttempts + i + 1,
                attemptReconnectDelay (s.reconnectAttempts + i + 1))) ∧
      fatalCount (runEvents5 s (List.replicate m (Ev5.wsClose c))).2
          = (if s.maxReconnectAttempts - s.reconnectAttempts < m then 1 else 0) ∧
      ((runEvents5 s (List.replicate m (Ev5.wsClose c))).1.isTranslating = true
          ↔ m ≤ s.maxReconnectAttempts - s.reconnectAttempts) := by
  induction m with
  | zero =>
      intro s c htr hle _ _
      refine ⟨by simp [runEvents5, scheduledOf5], by simp [runEvents5, fatalCount], ?_⟩
      simp [runEvents5, htr]
  | succ m ih =>
      intro s c htr hle hc1 hc2
      rw [List.replicate_succ, runEvents5_cons]
      dsimp only
      have hstep : step5 s (Ev5.wsClose c) = attemptReconnect s := by
        simp only [step5]
        rw [if_pos ⟨by rw [htr], hc1, hc2⟩]
      by_cases hmax : s.maxReconnectAttempts ≤ s.reconnectAttempts
      · have hatt : attemptReconnect s
            = ({ s with isTranslating := false, websocketOpen := false },
               [Act5.fatalSurfaced, Act5.closedTransport]) := by
          unfold attemptReconnect stopTranslation
          rw [if_pos hmax]
        rw [hstep, hatt]
        dsimp only
        obtain ⟨h1, h2, h3⟩ := runEvents5_stopped (List.replicate m (Ev5.wsClose c))
          { s with isTranslating := false, websocketOpen := false } rfl
        rw [scheduledOf5_append, fatalCount_append, h1, h2]
        have hz : s.maxReconnectAttempts - s.reconnectAttempts = 0 := by omega
        rw [hz]
        refine ⟨by simp [scheduledOf5], by simp [fatalCount], ?_⟩
        rw [h3]
        simp
      · have hatt : attemptReconnect s
            = ({ s with reconnectAttempts := s.reconnectAttempts + 1 },
               [Act5.scheduledReconnect (s.reconnectAttempts + 1)
                  (attemptReconnectDelay (s.reconnectAttempts + 1))]) := by
          unfold attemptReconnect
          rw [if_neg hmax]
        rw [hstep, hatt]
        dsimp only
        obtain ⟨h1, h2, h3⟩ :=
          ih { s with reconnectAttempts := s.reconnectAttempts + 1 } c htr
            (by dsimp only; omega) hc1 hc2
        dsimp only at h1 h2 h3
        rw [scheduledOf5_append, fatalCount_append, h1, h2]
        refine ⟨?_, ?_, ?_⟩
        · have hmin : min (m + 1) (s.maxReconnectAttempts - s.reconnectAttempts)
              = (min m (s.maxReconnectAttempts - (s.reconnectAttempts + 1))) + 1 := by omega
          rw [hmin, List.range_succ_eq_map, List.map_cons, List.map_map]
          have hhead : scheduledOf5 [Act5.scheduledReconnect (s.reconnectAttempts + 1)
              (attemptReconnectDelay (s.reconnectAttempts + 1))]
            = [(s.reconnectAttempts + 1, attemptReconnectDelay (s.reconnectAttempts + 1))] := by
            simp [scheduledOf5]
          rw [hhead, List.singleton_append]
          congr 1
          apply List.map_congr_left
          intro i hi
          have he : s.reconnectAttempts + 1 + i + 1 = s.reconnectAttempts + (i + 1) + 1 := by
            omega
          simp [Function.comp, he]
        · have hif : (s.maxReconnectAttempts - (s.reconnectAttempts + 1) < m)
              ↔ (s.maxReconnectAttempts - s.reconnectAttempts < m + 1) := by omega
          simp only [fatalCount, List.filter, Nat.zero_add]
          split_ifs with ha hb hb
          · rfl
          · exact absurd (hif.mp ha) hb
          · exact absurd (hif.mpr hb) ha
          · rfl
        · rw [h3]
          constructor <;> omega

theorem RingBuffer.read_capacity {α : Type} [Inhabited α] (b : RingBuffer α) (size : Nat) :
    (b.read size).2.capacity = b.capacity := by
  simp only [RingBuffer.read]
  split <;> rfl

theorem RingBuffer.applyOp_capacity {α : Type} [Inhabited α] (b : RingBuffer α) (op : BufOp α) :
    (b.applyOp op).capacity = b.capacity := by
  cases op with
  | write data => exact RingBuffer.write_capacity b data
  | read size => exact RingBuffer.read_capacity b size
  | clear => rfl

theorem RingBuffer.run_capacity {α : Type} [Inhabited α] (ops : List (BufOp α)) :
    ∀ b : RingBuffer α, (b.run ops).capacity = b.capacity := by
  induction ops with
  | nil => exact fun b => rfl
  | cons op ops ih =>
      intro b
      rw [show b.run (op :: ops) = (b.applyOp op).run ops from rfl, ih,
        RingBuffer.applyOp_capacity]

/-!
The claims.
-/

/-- C1, counterexample: the claim quantifies over sample arrays of arbitrary
length, but one `addToAudioBuffer` call on the part_004 manager with an array
one sample longer than the capacity fixed at construction
(`maxBufferSize = 1024 * 1024`) leaves the stored buffer LONGER than that
capacity — `splice(0, overflow)` can only evict samples that are already
buffered — so the bound `length ≤ capacity` fails after that operation. -/
theorem C1_counterexample_addToAudioBuffer_overflow :
    (addToAudioBuffer Manager.init (List.replicate (1024 * 1024 + 1) 0)).maxBufferSize
      < (addToAudioBuffer Manager.init (List.replicate (1024 * 1024 + 1) 0)).audioBuffer.length
    := by
  have hmax : Manager.init.maxBufferSize = 1024 * 1024 := rfl
  have hbuf : Manager.init.audioBuffer.length = 0 := rfl
  have hcond : Manager.init.maxBufferSize
      < Manager.init.audioBuffer.length + (List.replicate (1024 * 1024 + 1) (0 : ℚ)).length := by
    rw [hmax, hbuf, List.length_replicate]
    omega
  rw [addToAudioBuffer, if_pos hcond]
  simp only [List.length_append, List.length_drop, List.length_replicate]
  rw [hmax, hbuf]
  omega

/-- C1, amended: the part_005 CircularAudioBuffer satisfies the claim in
full — after every sequence of writes, reads and clears the stored length
never exceeds the capacity fixed at construction, and a write keeps exactly
the newest samples that fit, evicting only the oldest (never the newest).
The part_004 addToAudioBuffer keeps its buffer within `maxBufferSize` with
the same drop-oldest policy only under the extra premise that a single
incoming array is itself no longer than that capacity. -/
theorem C1_amended_bounded_and_drop_oldest {α : Type} [Inhabited α] (cap : Nat)
    (hcap : 0 < cap) (ops : List (BufOp α)) :
    ((RingBuffer.mkEmpty α cap).run ops).length ≤ (cap : Int) ∧
    (∀ data : List α,
      (((RingBuffer.mkEmpty α cap).run ops).write data).length ≤ (cap : Int) ∧
      (((RingBuffer.mkEmpty α cap).run ops).write data).toList
        = ((((RingBuffer.mkEmpty α cap).run ops).toList ++ data).drop
            (((RingBuffer.mkEmpty α cap).run ops).toList.length + data.length - cap))) ∧
    (∀ (s : Manager) (data : List ℚ),
      s.audioBuffer.length ≤ s.maxBufferSize → data.length ≤ s.maxBufferSize →
      (addToAudioBuffer s data).audioBuffer.length ≤ s.maxBufferSize ∧
      (addToAudioBuffer s data).audioBuffer
        = (s.audioBuffer ++ data).drop
            (s.audioBuffer.length + data.length - s.maxBufferSize)) := by
  have hInv := RingBuffer.run_Inv ops (RingBuffer.mkEmpty α cap)
    (RingBuffer.mkEmpty_Inv cap hcap)
  have hrc := RingBuffer.run_capacity ops (RingBuffer.mkEmpty α cap)
  have hrcap : ((RingBuffer.mkEmpty α cap).run ops).capacity = cap := hrc
  refine ⟨?_, ?_, ?_⟩
  · have := hInv.len_le
    rw [hrcap] at this
    exact this
  · intro data
    constructor
    · rw [RingBuffer.write_length _ data hInv, hrcap]
      exact min_le_right _ _
    · rw [RingBuffer.write_toList _ data hInv, hrcap]
  · intro s data hb hd
    unfold addToAudioBuffer
    split
    · rename_i hov
      constructor
      · simp only [List.length_append, List.length_drop]
        omega
      · rw [List.drop_append_eq_append_drop]
        have hz : s.audioBuffer.length + data.length - s.maxBufferSize
            - s.audioBuffer.length = 0 := by omega
        rw [hz, List.drop_zero]
    · rename_i hov
      constructor
      · simp only [List.length_append]
        omega
      · have hz : s.audioBuffer.length + data.length - s.maxBufferSize = 0 := by omega
        rw [hz, List.drop_zero]

/-- C1, witness for the amended theorem at capacity 3, a concrete operation
sequence, and a concrete part_004 overflow-free call. -/
theorem C1_amended_witness :
    (((RingBuffer.mkEmpty Nat 3).run [BufOp.write [1, 2, 3, 4], BufOp.read 2]).length
        ≤ (3 : Int)) ∧
    ((addToAudioBuffer Manager.init [1, 2]).audioBuffer.length
        ≤ Manager.init.maxBufferSize ∧
      (addToAudioBuffer Manager.init [1, 2]).audioBuffer
        = (Manager.init.audioBuffer ++ [1, 2]).drop
            (Manager.init.audioBuffer.length + [1, 2].length
              - Manager.init.maxBufferSize)) :=
  ⟨(C1_amended_bounded_and_drop_oldest 3 (by norm_num)
      [BufOp.write [1, 2, 3, 4], BufOp.read 2]).1,
   (C1_amended_bounded_and_drop_oldest 3 (by norm_num)
      ([] : List (BufOp Nat))).2.2 Manager.init [1, 2]
      (by rw [show Manager.init.audioBuffer.length = 0 from rfl,
            show Manager.init.maxBufferSize = 1024 * 1024 from rfl]; omega)
      (by rw [show Manager.init.maxBufferSize = 1024 * 1024 from rfl]; norm_num)⟩

/-- C2: starting from an empty circular buffer of capacity 1000, one write of
1500 samples completes (the write is a total function — overflow is handled,
not raised), leaves exactly the most recent 1000 samples (the oldest 500
evicted), and a subsequent read of 1000 returns those samples in FIFO
order. -/
theorem C2_write_1500_into_capacity_1000 {α : Type} [Inhabited α] (data : List α)
    (h : data.length = 1500) :
    ((RingBuffer.mkEmpty α 1000).write data).length = 1000 ∧
    ((RingBuffer.mkEmpty α 1000).write data).toList = data.drop 500 ∧
    (((RingBuffer.mkEmpty α 1000).write data).read 1000).1 = data.drop 500 := by
  have hInv := RingBuffer.mkEmpty_Inv (α := α) 1000 (by norm_num)
  have hlen := RingBuffer.write_length (RingBuffer.mkEmpty α 1000) data hInv
  have htl := RingBuffer.write_toList (RingBuffer.mkEmpty α 1000) data hInv
  rw [RingBuffer.mkEmpty_toList] at htl
  simp only [List.nil_append, List.length_nil, Nat.zero_add, h] at htl
  have hmk_len : (RingBuffer.mkEmpty α 1000).length = 0 := rfl
  have hmk_cap : (RingBuffer.mkEmpty α 1000).capacity = 1000 := rfl
  rw [hmk_len, hmk_cap, h] at hlen
  norm_num at hlen
  have hcap1000 : ((RingBuffer.mkEmpty α 1000).write data).capacity = 1000 :=
    RingBuffer.write_capacity _ _
  refine ⟨hlen, ?_, ?_⟩
  · rw [htl]
    norm_num [hmk_cap]
  · have hwInv := RingBuffer.write_Inv (RingBuffer.mkEmpty α 1000) data hInv
    rw [RingBuffer.read_fst _ 1000 hwInv, htl, hmk_cap]
    norm_num
    omega

/-- C2, witness at the concrete input 0, 1, ..., 1499. -/
theorem C2_witness :
    ((RingBuffer.mkEmpty Nat 1000).write (List.range 1500)).length = 1000 ∧
    ((RingBuffer.mkEmpty Nat 1000).write (List.range 1500)).toList
      = (List.range 1500).drop 500 ∧
    (((RingBuffer.mkEmpty Nat 1000).write (List.range 1500)).read 1000).1
      = (List.range 1500).drop 500 :=
  C2_write_1500_into_capacity_1000 (List.range 1500) (by simp)

/-- C3: within one session (a run containing no stopCapture event) the
sequence numbers carried by successively sent audio_chunk messages are
strictly increasing; of all the event handlers only the chunk-building
sendAudioChunk step (reached through processAudioData) advances the counter,
and only the session boundary stopCapture resets it (to zero). -/
theorem C3_sequence_numbers_strictly_increasing (evs : List Ev) (s : Manager)
    (h : Ev.stopCapture ∉ evs) :
    (sentSeqs (runEvents s evs).2).Pairwise (· < ·) ∧
    (∀ (s2 : Manager) (e : Ev), (∀ d n, e ≠ Ev.processAudio d n) → e ≠ Ev.stopCapture →
      (step s2 e).1.sequenceNumber = s2.sequenceNumber) ∧
    (∀ s2 : Manager, (step s2 Ev.stopCapture).1.sequenceNumber = 0) := by
  refine ⟨(runEvents_seq_invariant evs s h).2.2, ?_, fun s2 => rfl⟩
  intro s2 e hnp hns
  cases e with
  | processAudio d n => exact absurd rfl (hnp d n)
  | wsOpen => rfl
  | wsClose c =>
      simp only [step]
      split
      · exact (reconnectWebSocket_seq s2).1
      · rfl
  | retryFailed => exact (reconnectWebSocket_seq s2).1
  | connectionEstablished st now => rfl
  | syncResponse a b c => rfl
  | stopCapture => exact absurd rfl hns

/-- C3, witness: two audio callbacks, each late enough to flush a chunk,
yield the strictly increasing sent sequence numbers 0 and 1. -/
theorem C3_witness :
    Ev.stopCapture ∉ [Ev.processAudio [1] 200, Ev.processAudio [2] 400] ∧
    (sentSeqs (runEvents capturingInit
        [Ev.processAudio [1] 200, Ev.processAudio [2] 400]).2).Pairwise (· < ·) :=
  ⟨by decide,
   (C3_sequence_numbers_strictly_increasing
      [Ev.processAudio [1] 200, Ev.processAudio [2] 400] capturingInit (by decide)).1⟩

/-- C4, counterexample: with a sync request sent at local time 0 and its
response (carrying server time 10 and the echoed client time 0) received at
local time 4 — a measured RTT of 4 — the claimed estimate is
10 − 0 − 4/2 = 8, but the code stores server_time − client_time = 10:
no round-trip measurement or RTT/2 correction exists in the handler. -/
theorem C4_counterexample_no_rtt_correction :
    (step Manager.init (Ev.syncResponse 0 10 0)).1.serverTimeOffset
      ≠ specClockOffset 0 10 4 := by
  show (10 : ℚ) - 0 ≠ specClockOffset 0 10 4
  rw [specClockOffset]
  norm_num

/-- C4, amended: on every sync_response message the stored clock-offset
estimate is set to exactly server_time − client_time (the echoed request
send time); no RTT is measured and no RTT/2 correction is applied. -/
theorem C4_amended_offset_is_raw_difference (s : Manager) (ct st j : ℚ) :
    (step s (Ev.syncResponse ct st j)).1.serverTimeOffset = st - ct := rfl

/-- C5, counterexample: a sync sample whose RTT (1000 time units, from a send
at time 0 to receipt at time 1000) is far above the spec ceiling — median of
the recent RTTs [1, 1, 1] times factor 2, i.e. 2 — must per the claim be
rejected and leave the offset estimate unchanged; the part_004 handler
nevertheless overwrites the estimate (0 becomes 500). -/
theorem C5_counterexample_rejected_sample_still_updates :
    ¬ ((1000 : ℚ) < specRttCeiling [1, 1, 1] 2) ∧
    (step Manager.init (Ev.syncResponse 0 500 0)).1.serverTimeOffset
      ≠ Manager.init.serverTimeOffset := by
  constructor
  · rw [specRttCeiling, median]
    norm_num [List.insertionSort, List.orderedInsert]
  · show (500 : ℚ) - 0 ≠ Manager.init.serverTimeOffset
    rw [show Manager.init.serverTimeOffset = 0 from rfl]
    norm_num

/-- C5, amended: the part_004 client has no RTT gate at all — every received
sync_response unconditionally overwrites the offset estimate with
server_time − client_time — and the estimate is written only by the
sync_response and connection_established handlers, so an exchange that times
out (producing no response event) does leave it unchanged. -/
theorem C5_amended_no_rtt_gate (s : Manager) (ct st j : ℚ) (e : Ev)
    (h : touchesOffset e = false) :
    (step s (Ev.syncResponse ct st j)).1.serverTimeOffset = st - ct ∧
    (step s e).1.serverTimeOffset = s.serverTimeOffset := by
  refine ⟨rfl, ?_⟩
  cases e with
  | processAudio d n => exact processAudioData_fst_serverTimeOffset s d n
  | wsOpen => rfl
  | wsClose c =>
      simp only [step]
      split
      · unfold reconnectWebSocket
        split <;> rfl
      · rfl
  | retryFailed =>
      show (reconnectWebSocket s).1.serverTimeOffset = s.serverTimeOffset
      unfold reconnectWebSocket
      split <;> rfl
  | connectionEstablished a b => simp [touchesOffset] at h
  | syncResponse a b c => simp [touchesOffset] at h
  | stopCapture => rfl

/-- C5, witness at a concrete sample and a concrete offset-neutral event. -/
theorem C5_witness :
    touchesOffset Ev.wsOpen = false ∧
    ((step Manager.init (Ev.syncResponse 1 7 0)).1.serverTimeOffset = 7 - 1 ∧
      (step Manager.init Ev.wsOpen).1.serverTimeOffset = Manager.init.serverTimeOffset) :=
  ⟨rfl, C5_amended_no_rtt_gate Manager.init 1 7 0 Ev.wsOpen rfl⟩

/-- C6, counterexample: the part_005 retry delays 2000, 3000, 4500 ms
(attempts 1-3, from `2000 * 1.5^(k-1)`) cannot be written as
`min(base * 2^k, cap)` for ANY base and cap, so the claimed delay shape fails
as stated; both implementations are moreover deterministic — no random
jitter is ever added (see the amended schedule theorem). -/
theorem C6_counterexample_no_exponential_base_cap :
    ¬ ∃ base cap : ℚ, ∀ k : Nat, 1 ≤ k → k ≤ 5 →
        attemptReconnectDelay k = min (base * 2 ^ k) cap := by
  rintro ⟨base, cap, h⟩
  have h1 := h 1 (by norm_num) (by norm_num)
  have h2 := h 2 (by norm_num) (by norm_num)
  have h3 := h 3 (by norm_num) (by norm_num)
  rw [show attemptReconnectDelay 1 = 2000 by norm_num [attemptReconnectDelay]] at h1
  rw [show attemptReconnectDelay 2 = 3000 by norm_num [attemptReconnectDelay]] at h2
  rw [show attemptReconnectDelay 3 = 4500 by norm_num [attemptReconnectDelay]] at h3
  norm_num at h1 h2 h3
  rcases le_total (base * 2) cap with hb | hb
  · rw [min_eq_left hb] at h1
    have hbase : base = 1000 := by linarith
    subst hbase
    rcases le_total ((1000 : ℚ) * 4) cap with hc | hc
    · rw [min_eq_left hc] at h2
      norm_num at h2
    · rw [min_eq_right hc] at h2
      rcases le_total ((1000 : ℚ) * 8) cap with hd | hd
      · rw [min_eq_left hd] at h3
        norm_num at h3
      · rw [min_eq_right hd] at h3
        linarith
  · rw [min_eq_right hb] at h1
    have hle : min (base * 4) cap ≤ cap := min_le_right _ _
    rw [← h2] at hle
    linarith

/-- C6, amended: the reconnect delays are deterministic, with no jitter.  In
a run of consecutive failures, the k-th attempt scheduled by the part_004
manager carries exactly `min(1000 * 2^k, 30000)` ms (the claimed shape with
base 1000 and cap 30000, but jitter-free), while the part_005 client
schedules exactly `2000 * 1.5^(k-1)` ms, uncapped, which does not fit the
claimed `min(base * 2^k, cap)` shape at all. -/
theorem C6_amended_deterministic_delays (m c : Nat) :
    scheduledOf (runEvents capturingInit (List.replicate m (Ev.wsClose c))).2
        = (List.range (min m 5)).map (fun i => (i + 1, min (1000 * 2 ^ (i + 1)) 30000)) ∧
    scheduledOf5 (runEvents5 translatingInit (List.replicate m (Ev5.wsClose 1006))).2
        = (List.range (min m 5)).map (fun i => (i + 1, attemptReconnectDelay (i + 1))) := by
  constructor
  · have hsch := (runEvents_close_schedule m capturingInit c rfl (by decide)).1
    rw [show capturingInit.maxReconnectAttempts = 5 from rfl,
      show capturingInit.reconnectAttempts = 0 from rfl] at hsch
    simpa using hsch
  · have hsch := (runEvents5_close_schedule m translatingInit 1006 rfl (by decide)
      (by norm_num) (by norm_num)).1
    rw [show translatingInit.maxReconnectAttempts = 5 from rfl,
      show translatingInit.reconnectAttempts = 0 from rfl] at hsch
    simpa using hsch

/-- C7, counterexample: in the part_004 manager, twelve consecutive closures
exhaust the five reconnect attempts, after which the handler merely returns:
the session never reaches any closed state — capture remains active and the
websocket field is untouched — and no fatal error is surfaced to the caller
(the output trace consists of the five schedules only). -/
theorem C7_counterexample_session_never_closes :
    (runEvents capturingInit (List.replicate 12 (Ev.wsClose 1006))).1.isCapturing = true ∧
    (runEvents capturingInit (List.replicate 12 (Ev.wsClose 1006))).1.websocket
      = capturingInit.websocket ∧
    (scheduledOf (runEvents capturingInit (List.replicate 12 (Ev.wsClose 1006))).2).length
      = 5 := by
  refine ⟨?_, ?_, ?_⟩ <;> rfl

/-- C7, amended: after the maximum of five consecutive failed reconnect
attempts, exactly five retries have been scheduled and no further attempt is
ever scheduled.  In the part_005 client the session additionally stops
(reaching its closed state, isTranslating = false) and the connection
failure is surfaced exactly once; in the part_004 manager the session is
left open and no fatal error is surfaced to the caller. -/
theorem C7_amended_reconnect_termination (m : Nat) :
    ((scheduledOf5 (runEvents5 translatingInit
        (List.replicate (6 + m) (Ev5.wsClose 1006))).2).length = 5 ∧
      fatalCount (runEvents5 translatingInit
        (List.replicate (6 + m) (Ev5.wsClose 1006))).2 = 1 ∧
      (runEvents5 translatingInit
        (List.replicate (6 + m) (Ev5.wsClose 1006))).1.isTranslating = false) ∧
    (∀ c : Nat,
      (scheduledOf (runEvents capturingInit (List.replicate m (Ev.wsClose c))).2).length
          = min m 5 ∧
      (runEvents capturingInit (List.replicate m (Ev.wsClose c))).1.isCapturing = true) := by
  obtain ⟨h1, h2, h3⟩ := runEvents5_close_schedule (6 + m) translatingInit 1006 rfl
    (by decide) (by norm_num) (by norm_num)
  rw [show translatingInit.maxReconnectAttempts = 5 from rfl,
    show translatingInit.reconnectAttempts = 0 from rfl] at h1 h2 h3
  refine ⟨⟨?_, ?_, ?_⟩, ?_⟩
  · rw [h1]
    simp only [List.length_map, List.length_range]
    omega
  · rw [h2, if_pos (by omega)]
  · rcases htr : (runEvents5 translatingInit
        (List.replicate (6 + m) (Ev5.wsClose 1006))).1.isTranslating with _ | _
    · rfl
    · have := h3.mp htr
      omega
  · intro c
    obtain ⟨g1, g2, _⟩ := runEvents_close_schedule m capturingInit c rfl (by decide)
    simp only [show capturingInit.maxReconnectAttempts = 5 from rfl,
      show capturingInit.reconnectAttempts = 0 from rfl] at g1
    refine ⟨?_, g2⟩
    rw [g1]
    simp

/-- C8, counterexample: the part_004 onclose handler ignores the closure
code, so a NORMAL closure (code 1000) while the session is capturing
schedules a reconnection attempt — reconnection is not reserved to abnormal
closures, contrary to the claim. -/
theorem C8_counterexample_reconnect_on_normal_closure :
    scheduledOf (step capturingInit (Ev.wsClose 1000)).2 = [(1, 2000)] := by rfl

/-- C8, amended: in the part_005 client, a reconnection is scheduled only on
an abnormal closure (code neither 1000 nor 1001) while the session is still
translating; an explicit stop closes the transport non-abnormally with the
translating flag already cleared, and no event after a stop can ever
schedule a reconnection.  In the part_004 manager, by contrast, a closure
with ANY code schedules a reconnection while capturing, and stopCapture does
not cancel a pending retry timer, whose failure path can schedule a further
reconnection attempt even after the stop. -/
theorem C8_amended_stop_vs_abnormal_closure (s5 : Client) (s4 : Manager) (c : Nat)
    (evs : List Ev5) :
    (scheduledOf5 (step5 s5 (Ev5.wsClose c)).2 ≠ [] →
      s5.isTranslating = true ∧ c ≠ 1000 ∧ c ≠ 1001) ∧
    ((step5 s5 Ev5.stopTranslation).2 = [Act5.closedTransport] ∧
      (step5 s5 Ev5.stopTranslation).1.isTranslating = false) ∧
    scheduledOf5 (runEvents5 (step5 s5 Ev5.stopTranslation).1 evs).2 = [] ∧
    (s4.isCapturing = true → s4.reconnectAttempts < s4.maxReconnectAttempts →
      scheduledOf (step s4 (Ev.wsClose c)).2
        = [(s4.reconnectAttempts + 1, min (1000 * 2 ^ (s4.reconnectAttempts + 1)) 30000)]) ∧
    scheduledOf (runEvents capturingInit [Ev.stopCapture, Ev.retryFailed]).2 ≠ [] := by
  refine ⟨?_, ⟨rfl, rfl⟩, ?_, ?_, by decide⟩
  · intro hne
    by_cases hcond : s5.isTranslating = true ∧ c ≠ 1000 ∧ c ≠ 1001
    · exact hcond
    · exfalso
      apply hne
      show scheduledOf5 (if s5.isTranslating = true ∧ c ≠ 1000 ∧ c ≠ 1001
          then attemptReconnect s5 else (s5, [])).2 = []
      rw [if_neg hcond]
      rfl
  · exact (runEvents5_stopped evs (step5 s5 Ev5.stopTranslation).1 rfl).1
  · intro hcap hlt
    have hstep : step s4 (Ev.wsClose c) = reconnectWebSocket s4 := by
      simp [step, hcap]
    rw [hstep]
    unfold reconnectWebSocket
    rw [if_neg (by omega)]
    simp [scheduledOf]

/-- C8, witness: the amended statement exercised at the translating start
state, closure code 1006, the capturing start state and a one-event tail. -/
theorem C8_witness :
    (translatingInit.isTranslating = true ∧ (1006 : Nat) ≠ 1000 ∧ (1006 : Nat) ≠ 1001) ∧
    scheduledOf (step capturingInit (Ev.wsClose 1006)).2 = [(1, 2000)] :=
  ⟨(C8_amended_stop_vs_abnormal_closure translatingInit capturingInit 1006
      [Ev5.wsClose 1006]).1 (by decide),
   by
    have := (C8_amended_stop_vs_abnormal_closure translatingInit capturingInit 1006
      [Ev5.wsClose 1006]).2.2.2.1 rfl (by decide)
    simpa using this⟩

/-- C9: for the lossless codec path implemented in src — the identity
passthrough `compressAudioData`, whose output is the little-endian byte
stream of the signed 16-bit samples — decode is the exact inverse of encode:
every in-range sample list survives the round trip unchanged.  The decode
side is modelled from the spec, the backend decompression code not being
under src (see `decompressAudioData`). -/
theorem C9_codec_roundtrip (samples : List Int)
    (h : ∀ x ∈ samples, -32768 ≤ x ∧ x < 32768) :
    decompressAudioData (compressAudioData samples) = samples := by
  induction samples with
  | nil => rfl
  | cons x xs ih =>
      obtain ⟨hx1, hx2⟩ := h x (List.mem_cons_self x xs)
      have htail : decompressAudioData (compressAudioData xs) = xs :=
        ih fun y hy => h y (List.mem_cons_of_mem x hy)
      show decompressAudioData
        ((x % 65536).toNat % 256 :: (x % 65536).toNat / 256 :: compressAudioData xs) = x :: xs
      rw [decompressAudioData]
      rw [htail]
      congr 1
      have hsum : (x % 65536).toNat % 256 + 256 * ((x % 65536).toNat / 256)
          = (x % 65536).toNat := Nat.mod_add_div _ _
      split_ifs with hcond
      · omega
      · omega

/-- C9, witness at a concrete sample list covering zero, the extremes and
negative values. -/
theorem C9_witness :
    decompressAudioData (compressAudioData [0, 1, -1, 32767, -32768, 12345])
      = [0, 1, -1, 32767, -32768, 12345] :=
  C9_codec_roundtrip [0, 1, -1, 32767, -32768, 12345] (by decide)

/-- C10: whenever sendAudioChunk runs with a non-empty audio buffer and a
non-null websocket, it empties the buffer and zeroes the clip and silence
counters even when the socket is not OPEN (readyState 1); in that case
nothing is sent, so the captured samples are discarded outright — they are
not retained for any retry, and the state holds no drop counter that could
be incremented (the only fields that change are the consumed sequence
number, the refreshed lastChunkTime, and the cleared buffer and counters). -/
theorem C10_sendAudioChunk_discards_when_not_open (s : Manager) (now : Int) (w : WebSock)
    (hbuf : s.audioBuffer ≠ []) (hws : s.websocket = some w) :
    (sendAudioChunk s now).1.audioBuffer = [] ∧
    (sendAudioChunk s now).1.clipCount = 0 ∧
    (sendAudioChunk s now).1.silenceCount = 0 ∧
    (sendAudioChunk s now).1.sequenceNumber = s.sequenceNumber + 1 ∧
    (sendAudioChunk s now).1.lastChunkTime = now ∧
    (sendAudioChunk s now).1.isCapturing = s.isCapturing ∧
    (sendAudioChunk s now).1.websocket = s.websocket ∧
    (sendAudioChunk s now).1.reconnectAttempts = s.reconnectAttempts ∧
    (sendAudioChunk s now).1.maxReconnectAttempts = s.maxReconnectAttempts ∧
    (sendAudioChunk s now).1.bufferSize = s.bufferSize ∧
    (sendAudioChunk s now).1.maxBufferSize = s.maxBufferSize ∧
    (sendAudioChunk s now).1.sampleRate = s.sampleRate ∧
    (sendAudioChunk s now).1.peakLevel = s.peakLevel ∧
    (sendAudioChunk s now).1.serverTimeOffset = s.serverTimeOffset ∧
    (w.readyState ≠ 1 → (sendAudioChunk s now).2 = none) := by
  have hbe : s.audioBuffer.isEmpty = false := by
    rcases hb : s.audioBuffer with _ | ⟨a, l⟩
    · exact absurd hb hbuf
    · rfl
  rw [sendAudioChunk_eq_of_nonempty s now w hbe hws]
  refine ⟨rfl, rfl, rfl, rfl, rfl, rfl, rfl, rfl, rfl, rfl, rfl, rfl, rfl, rfl, ?_⟩
  intro hrs
  show (if w.readyState = 1 then _ else none) = none
  rw [if_neg hrs]

/-- C10, witness: a one-sample buffer and a CLOSED (readyState 3) socket. -/
theorem C10_witness :
    (({ Manager.init with audioBuffer := [1], websocket := some ⟨3⟩ } : Manager).audioBuffer
        ≠ []) ∧
    ((sendAudioChunk { Manager.init with audioBuffer := [1], websocket := some ⟨3⟩ } 5).1.audioBuffer
        = [] ∧
      (sendAudioChunk { Manager.init with audioBuffer := [1], websocket := some ⟨3⟩ } 5).2
        = none) := by
  have hmain := C10_sendAudioChunk_discards_when_not_open
    { Manager.init with audioBuffer := [1], websocket := some ⟨3⟩ } 5 ⟨3⟩
    (by simp) rfl
  exact ⟨by simp, hmain.1, hmain.2.2.2.2.2.2.2.2.2.2.2.2.2.2 (by norm_num)⟩

end TrueTone
